import Mathlib

/-!
Verification of the order-book aggregator (seckinss/bookAggr).

The TypeScript connectors keep, per exchange, a `Map<string, …>` of order books
(`{ lastUpdateId, bids: Map<number, number>, asks: Map<number, number> }`), a
`Map<string, tickerData>` of published prices, and bookkeeping maps for the
initialization protocol.  A JavaScript `Map` is modelled here as the list of its
entries in insertion order; `Map.set` replaces the value of an existing key in
place and appends a fresh key at the end, `Map.delete` removes the key's entry,
`Map.get` returns the stored value if any.  Prices and sizes are the exact
decimal quantities of the spec, modelled as rationals; update identifiers,
sequence numbers and timestamps are naturals.
-/

/-- JavaScript `Map.get k`: the value stored at key `k`, if any. -/
def mapGet {κ α : Type} [DecidableEq κ] : List (κ × α) → κ → Option α
  | [], _ => none
  | e :: rest, k => if e.1 = k then some e.2 else mapGet rest k

/-- JavaScript `Map.set k v`: replace the value of an existing key in place,
append a fresh key at the end. -/
def mapSet {κ α : Type} [DecidableEq κ] : List (κ × α) → κ → α → List (κ × α)
  | [], k, v => [(k, v)]
  | e :: rest, k, v => if e.1 = k then (k, v) :: rest else e :: mapSet rest k v

/-- JavaScript `Map.delete k`: remove the entry stored at key `k`. -/
def mapDelete {κ α : Type} [DecidableEq κ] : List (κ × α) → κ → List (κ × α)
  | [], _ => []
  | e :: rest, k => if e.1 = k then rest else e :: mapDelete rest k

/-- The keys of the entry list are pairwise distinct — every list reachable by
`Map` operations satisfies this. -/
abbrev keysNodup {κ α : Type} (m : List (κ × α)) : Prop :=
  List.Pairwise (fun e e₂ => e.1 ≠ e₂.1) m

section MapLemmas

variable {κ α : Type} [DecidableEq κ]

theorem mapGet_mapSet_self (m : List (κ × α)) (k : κ) (v : α) :
    mapGet (mapSet m k v) k = some v := by
  induction m with
  | nil => simp [mapGet, mapSet]
  | cons e rest ih =>
      by_cases h : e.1 = k
      · simp [mapGet, mapSet, h]
      · simp [mapGet, mapSet, h, ih]

theorem mapGet_mapSet_ne (m : List (κ × α)) {k k₂ : κ} (v : α) (h : k₂ ≠ k) :
    mapGet (mapSet m k v) k₂ = mapGet m k₂ := by
  induction m with
  | nil =>
      simp only [mapSet, mapGet]
      rw [if_neg (fun he => h he.symm)]
  | cons e rest ih =>
      by_cases he : e.1 = k
      · have h1 : ¬ k = k₂ := fun he2 => h he2.symm
        have h2 : ¬ e.1 = k₂ := fun hc => h1 (he ▸ hc)
        simp [mapSet, he, mapGet, h1, h2]
      · simp only [mapSet, he, if_false, mapGet]
        by_cases he2 : e.1 = k₂ <;> simp [he2, ih]

theorem mapSet_mapSet_self (m : List (κ × α)) (k : κ) (v : α) :
    mapSet (mapSet m k v) k v = mapSet m k v := by
  induction m with
  | nil => simp [mapSet]
  | cons e rest ih =>
      by_cases h : e.1 = k
      · simp [mapSet, h]
      · simp [mapSet, h, ih]

theorem mem_mapSet {m : List (κ × α)} {k : κ} {v : α} {e : κ × α}
    (h : e ∈ mapSet m k v) : e.1 = k ∨ e ∈ m := by
  induction m with
  | nil =>
      simp only [mapSet, List.mem_singleton] at h
      subst h; exact Or.inl rfl
  | cons hd rest ih =>
      by_cases hh : hd.1 = k
      · simp only [mapSet, hh, if_true, List.mem_cons] at h
        rcases h with h | h
        · subst h; exact Or.inl rfl
        · exact Or.inr (List.mem_cons_of_mem _ h)
      · simp only [mapSet, hh, if_false, List.mem_cons] at h
        rcases h with h | h
        · subst h; exact Or.inr (List.mem_cons_self _ _)
        · rcases ih h with h2 | h2
          · exact Or.inl h2
          · exact Or.inr (List.mem_cons_of_mem _ h2)

theorem mem_mapDelete {m : List (κ × α)} {k : κ} {e : κ × α}
    (h : e ∈ mapDelete m k) : e ∈ m := by
  induction m with
  | nil => simpa [mapDelete] using h
  | cons hd rest ih =>
      by_cases hh : hd.1 = k
      · simp only [mapDelete, hh, if_true] at h
        exact List.mem_cons_of_mem _ h
      · simp only [mapDelete, hh, if_false, List.mem_cons] at h
        rcases h with h | h
        · subst h; exact List.mem_cons_self _ _
        · exact List.mem_cons_of_mem _ (ih h)

theorem keysNodup_mapSet {m : List (κ × α)} (k : κ) (v : α) (h : keysNodup m) :
    keysNodup (mapSet m k v) := by
  induction m with
  | nil => simp [mapSet, keysNodup]
  | cons e rest ih =>
      rcases h with - | ⟨he, hrest⟩
      by_cases hh : e.1 = k
      · simp only [mapSet, hh, if_true]
        exact List.Pairwise.cons (fun e2 h2 => hh ▸ he e2 h2) hrest
      · simp only [mapSet, hh, if_false]
        refine List.Pairwise.cons (fun e2 he2 => ?_) (ih hrest)
        rcases mem_mapSet he2 with h2 | h2
        · rw [h2]; exact hh
        · exact he e2 h2

theorem keysNodup_mapDelete {m : List (κ × α)} (k : κ) (h : keysNodup m) :
    keysNodup (mapDelete m k) := by
  induction m with
  | nil => simpa [mapDelete] using h
  | cons e rest ih =>
      rcases h with - | ⟨he, hrest⟩
      by_cases hh : e.1 = k
      · simpa [mapDelete, hh] using hrest
      · simp only [mapDelete, hh, if_false]
        exact List.Pairwise.cons (fun e2 he2 => he e2 (mem_mapDelete he2)) (ih hrest)

theorem mapGet_mapDelete_ne (m : List (κ × α)) {k k₂ : κ} (h : k₂ ≠ k) :
    mapGet (mapDelete m k) k₂ = mapGet m k₂ := by
  induction m with
  | nil => simp [mapDelete]
  | cons e rest ih =>
      by_cases hh : e.1 = k
      · have h1 : ¬ k = k₂ := fun he => h he.symm
        have h2 : ¬ e.1 = k₂ := by rw [hh]; exact h1
        simp [mapDelete, mapGet, hh, h1, h2]
      · by_cases h2 : e.1 = k₂ <;> simp [mapDelete, mapGet, hh, h2, ih, h]

theorem mapGet_eq_none_of_keys_ne {m : List (κ × α)} {k : κ}
    (h : ∀ e ∈ m, e.1 ≠ k) : mapGet m k = none := by
  induction m with
  | nil => simp [mapGet]
  | cons e rest ih =>
      simp only [mapGet, h e (List.mem_cons_self _ _), if_false]
      exact ih (fun x hx => h x (List.mem_cons_of_mem _ hx))

theorem mapGet_mapDelete_self {m : List (κ × α)} (k : κ) (h : keysNodup m) :
    mapGet (mapDelete m k) k = none := by
  induction m with
  | nil => simp [mapDelete, mapGet]
  | cons e rest ih =>
      rcases h with - | ⟨he, hrest⟩
      by_cases hh : e.1 = k
      · simp only [mapDelete, hh, if_true]
        exact mapGet_eq_none_of_keys_ne (fun x hx => fun hc => he x hx (hh.trans hc.symm))
      · simp [mapDelete, mapGet, hh, ih hrest]

theorem mapGet_eq_some_of_mem {m : List (κ × α)} {k : κ} {v : α}
    (hn : keysNodup m) (h : (k, v) ∈ m) : mapGet m k = some v := by
  induction m with
  | nil => simp at h
  | cons e rest ih =>
      rcases hn with - | ⟨he, hrest⟩
      rcases List.mem_cons.mp h with h | h
      · rw [← h]; simp [mapGet]
      · have h2 : ¬ e.1 = k := fun hc => (he (k, v) h) hc
        simp only [mapGet, h2, if_false]
        exact ih hrest h

theorem mem_of_mapGet_eq_some {m : List (κ × α)} {k : κ} {v : α}
    (h : mapGet m k = some v) : (k, v) ∈ m := by
  induction m with
  | nil => simp [mapGet] at h
  | cons e rest ih =>
      by_cases hh : e.1 = k
      · simp only [mapGet, hh, if_true, Option.some_inj] at h
        have h2 : e = (k, v) := Prod.ext hh h
        rw [← h2]; exact List.mem_cons_self _ _
      · simp only [mapGet, hh, if_false] at h
        exact List.mem_cons_of_mem _ (ih h)

theorem entriesNodup {m : List (κ × α)} (h : keysNodup m) : m.Nodup :=
  h.imp (fun hne he => hne (congrArg Prod.fst he))

theorem mapExt_perm {m₁ m₂ : List (κ × α)}
    (h₁ : keysNodup m₁) (h₂ : keysNodup m₂)
    (h : ∀ k, mapGet m₁ k = mapGet m₂ k) : m₁.Perm m₂ := by
  refine (List.perm_ext_iff_of_nodup (entriesNodup h₁) (entriesNodup h₂)).mpr (fun e => ?_)
  constructor
  · intro he
    exact mem_of_mapGet_eq_some ((h e.1).symm.trans (mapGet_eq_some_of_mem h₁ he) :
      mapGet m₂ e.1 = some e.2)
  · intro he
    exact mem_of_mapGet_eq_some ((h e.1).trans (mapGet_eq_some_of_mem h₂ he) :
      mapGet m₁ e.1 = some e.2)

end MapLemmas

/-! ### Data model: orders, ladders, published ticker data -/

/-- A price level, `src/webhelpers/types/index.ts`: `type Order = {price, size}`. -/
structure Order where
  price : ℚ
  size : ℚ
deriving DecidableEq

/-- `type Orders = {bid: Order[], ask: Order[], lastUpdateId?: number}`. -/
structure Orders where
  bid : List Order
  ask : List Order
  lastUpdateId : Option ℕ
deriving DecidableEq

/-- `type tickerData = {price: number | undefined, lastUpdated: number, orders: Orders}`. -/
structure TickerData where
  price : Option ℚ
  lastUpdated : ℕ
  orders : Orders
deriving DecidableEq

/-- The literal `{ price: undefined, lastUpdated: 0, orders: { bid: [], ask: [] } }`
used as default whenever `this.prices.get(parsedTicker)` is undefined. -/
def defaultTickerData : TickerData :=
  { price := none, lastUpdated := 0
    orders := { bid := [], ask := [], lastUpdateId := none } }

/-- Comparator `(a, b) => b.price - a.price` used for bids: `a` sorts before `b`
when `a` has the higher price (descending). -/
def bidOrder (a b : Order) : Prop := b.price ≤ a.price

/-- Comparator `(a, b) => a.price - b.price` used for asks: ascending by price. -/
def askOrder (a b : Order) : Prop := a.price ≤ b.price

/-- Strictly descending by price. -/
def bidStrict (a b : Order) : Prop := b.price < a.price

/-- Strictly ascending by price. -/
def askStrict (a b : Order) : Prop := a.price < b.price

instance : DecidableRel bidOrder := fun a b => inferInstanceAs (Decidable (b.price ≤ a.price))

instance : DecidableRel askOrder := fun a b => inferInstanceAs (Decidable (a.price ≤ b.price))

instance : IsTotal Order bidOrder := ⟨fun a b => le_total b.price a.price⟩

instance : IsTotal Order askOrder := ⟨fun a b => le_total a.price b.price⟩

instance : IsTrans Order bidOrder := ⟨fun _ _ _ h h₂ => le_trans h₂ h⟩

instance : IsTrans Order askOrder := ⟨fun _ _ _ h h₂ => le_trans h h₂⟩

instance : IsAntisymm Order bidStrict := ⟨fun _ _ h h₂ => absurd (h.trans h₂) (lt_irrefl _)⟩

instance : IsAntisymm Order askStrict := ⟨fun _ _ h h₂ => absurd (h.trans h₂) (lt_irrefl _)⟩

/-- A `Map` entry `[price, size]` as an `Order`, the `.map(([price, size]) => ({price, size}))`
step of `updatePricesOrderBook`. -/
def entryToOrder (e : ℚ × ℚ) : Order := { price := e.1, size := e.2 }

/-- `Array.from(bids.entries()).map(([price, size]) => ({price, size})).sort((a, b) =>
b.price - a.price).slice(0, depth)`.  The entry list of a ladder has pairwise-distinct
keys, so JavaScript's comparison sort returns the unique descending-by-price ordering,
modelled by `List.insertionSort`. -/
def ladderBids (depth : ℕ) (m : List (ℚ × ℚ)) : List Order :=
  (List.insertionSort bidOrder (m.map entryToOrder)).take depth

/-- The ask-side counterpart of `ladderBids`: sort ascending, truncate to `depth`. -/
def ladderAsks (depth : ℕ) (m : List (ℚ × ℚ)) : List Order :=
  (List.insertionSort askOrder (m.map entryToOrder)).take depth

/-! ### Ladder writes -/

/-- The level-update loops shared by `Binance.applyDepthUpdate` (lines 316–338),
`OKX.processOrderBookUpdate`, `Kucoin.processOrderBookUpdate`,
`Backpack.applyDepthUpdate` and `Kraken.processBookUpdate`: for each change
`[price, quantity]`, `quantity === 0` deletes the price key, otherwise the key
is set to the new quantity. -/
def applyChanges (ladder : List (ℚ × ℚ)) (changes : List (ℚ × ℚ)) : List (ℚ × ℚ) :=
  changes.foldl (fun m c => if c.2 = 0 then mapDelete m c.1 else mapSet m c.1 c.2) ladder

/-- The snapshot-install loops of `initializeOrderBook` (Binance lines 226–240,
and likewise OKX, Kucoin, Backpack): starting from a fresh `Map`, each snapshot
level with `quantity > 0` is inserted, all other levels are skipped. -/
def snapshotLadder (levels : List (ℚ × ℚ)) : List (ℚ × ℚ) :=
  levels.foldl (fun m lv => if 0 < lv.2 then mapSet m lv.1 lv.2 else m) []

/-! ### Connector state -/

/-- Binance `depthUpdate` message (fields after `parseFloat`/identity parsing):
`U`/`u` first and final update id, `b`/`a` bid and ask changes, `s` the symbol.
Backpack's `DepthUpdate` has the same shape (`U`/`u` arrive as strings and are
read through `parseInt`). -/
structure DepthUpdate where
  s : String
  U : ℕ
  u : ℕ
  b : List (ℚ × ℚ)
  a : List (ℚ × ℚ)
deriving DecidableEq

/-- One entry of `this.orderBooks`: `{ lastUpdateId, bids, asks }`. -/
structure OrderBookEntry where
  lastUpdateId : ℕ
  bids : List (ℚ × ℚ)
  asks : List (ℚ × ℚ)
deriving DecidableEq

/-- The mutable fields of a connector relevant to book synchronisation:
`orderBooks`, `prices`, `isInitializing`, `depthUpdateBuffers` (only Binance
and Backpack own buffers; OKX and Kucoin never touch theirs) and the constant
`orderBookDepth` (20 in every connector). -/
structure ConnState where
  orderBooks : List (String × OrderBookEntry)
  prices : List (String × TickerData)
  isInitializing : List (String × Bool)
  depthUpdateBuffers : List (String × List DepthUpdate)
  orderBookDepth : ℕ
deriving DecidableEq

/-- `updatePricesOrderBook` is textually identical in Binance, OKX, Kucoin and
Backpack up to the `parseTicker` rule: read the book, convert both ladders to
sorted depth-limited arrays, and store them in `this.prices` under the parsed
ticker, keeping the previously stored `price` field. -/
def updatePricesWith (parse : String → String) (now : ℕ) (st : ConnState)
    (ticker : String) : ConnState :=
  match mapGet st.orderBooks ticker with
  | none => st
  | some orderBook =>
    let parsedTicker := parse ticker
    let currentData := (mapGet st.prices parsedTicker).getD defaultTickerData
    let bids := ladderBids st.orderBookDepth orderBook.bids
    let asks := ladderAsks st.orderBookDepth orderBook.asks
    let stored : TickerData :=
      { price := currentData.price
        lastUpdated := now
        orders := { bid := bids, ask := asks, lastUpdateId := some orderBook.lastUpdateId } }
    { st with prices := mapSet st.prices parsedTicker stored }

/-- Binance `parseTicker = (ticker) => ticker.replace('USDT', '')`. -/
def Binance.parseTicker (ticker : String) : String := ticker.replace "USDT" ""

/-- `Binance.updatePricesOrderBook` (part_001 lines 350–382). -/
def Binance.updatePricesOrderBook (now : ℕ) (st : ConnState) (ticker : String) : ConnState :=
  updatePricesWith Binance.parseTicker now st ticker

/-- `Binance.applyDepthUpdate` (part_001 lines 299–345).  The gap branch calls
`this.initializeOrderBook(ticker)`, whose synchronous prefix re-marks the ticker
as initializing and clears its buffer before the first `await`; the rest of that
method is the network continuation modelled by `Binance.initializeOrderBook`
below.  `now` stands for the `Date.now()` read in `updatePricesOrderBook`. -/
def Binance.applyDepthUpdate (now : ℕ) (st : ConnState) (ticker : String)
    (data : DepthUpdate) : ConnState :=
  match mapGet st.orderBooks ticker with
  | none => st
  | some orderBook =>
    if data.u ≤ orderBook.lastUpdateId then st
    else if orderBook.lastUpdateId + 1 < data.U then
      { st with
        isInitializing := mapSet st.isInitializing ticker true
        depthUpdateBuffers := mapSet st.depthUpdateBuffers ticker [] }
    else
      let orderBook₂ : OrderBookEntry :=
        { lastUpdateId := data.u
          bids := applyChanges orderBook.bids data.b
          asks := applyChanges orderBook.asks data.a }
      Binance.updatePricesOrderBook now
        { st with orderBooks := mapSet st.orderBooks ticker orderBook₂ } ticker

/-- `Binance.processDepthUpdate` (part_001 lines 169–182): while initializing,
push the update onto the ticker's buffer; otherwise apply it directly. -/
def Binance.processDepthUpdate (now : ℕ) (st : ConnState) (data : DepthUpdate) : ConnState :=
  let ticker := data.s
  if (mapGet st.isInitializing ticker).getD false then
    let buffer := (mapGet st.depthUpdateBuffers ticker).getD []
    { st with depthUpdateBuffers := mapSet st.depthUpdateBuffers ticker (buffer ++ [data]) }
  else
    Binance.applyDepthUpdate now st ticker data

/-- A REST depth snapshot `{ lastUpdateId, bids, asks }` after parsing. -/
structure Snapshot where
  lastUpdateId : ℕ
  bids : List (ℚ × ℚ)
  asks : List (ℚ × ℚ)
deriving DecidableEq

/-- Result of one round of `initializeOrderBook`: either the recursive
`return this.initializeOrderBook(ticker)` retry (the snapshot is discarded and
bootstrap restarts), or completion with the resulting connector state. -/
inductive InitResult where
  | restart : InitResult
  | done : ConnState → InitResult
deriving DecidableEq

/-- `Binance.initializeOrderBook` (part_001 lines 187–281) from the point where
the snapshot has been fetched: install the snapshot ladders (dropping non-positive
levels), keep the buffered events whose final id `u` lies after the snapshot
marker, require the first of them to straddle `lastUpdateId + 1` (otherwise
restart), replay them through `applyDepthUpdate`, publish, and clear the
initializing flag and the buffer. -/
def Binance.initializeOrderBook (now : ℕ) (st : ConnState) (ticker : String)
    (snapshot : Snapshot) (buffer : List DepthUpdate) : InitResult :=
  let installed : OrderBookEntry :=
    { lastUpdateId := snapshot.lastUpdateId
      bids := snapshotLadder snapshot.bids
      asks := snapshotLadder snapshot.asks }
  let st₁ := { st with orderBooks := mapSet st.orderBooks ticker installed }
  let validEvents := buffer.filter (fun event => snapshot.lastUpdateId < event.u)
  match validEvents with
  | [] =>
    let st₂ := Binance.updatePricesOrderBook now st₁ ticker
    InitResult.done { st₂ with
      isInitializing := mapSet st₂.isInitializing ticker false
      depthUpdateBuffers := mapSet st₂.depthUpdateBuffers ticker [] }
  | firstValidEvent :: _ =>
    if firstValidEvent.U ≤ snapshot.lastUpdateId + 1 ∧
        snapshot.lastUpdateId + 1 ≤ firstValidEvent.u then
      let st₂ := validEvents.foldl
        (fun acc event => Binance.applyDepthUpdate now acc ticker event) st₁
      let st₃ := Binance.updatePricesOrderBook now st₂ ticker
      InitResult.done { st₃ with
        isInitializing := mapSet st₃.isInitializing ticker false
        depthUpdateBuffers := mapSet st₃.depthUpdateBuffers ticker [] }
    else
      InitResult.restart

/-- The price branch of `Binance.connect`'s `onmessage` handler (part_001 lines
397–413): store the new price under the parsed ticker, keeping the previously
stored `orders`. -/
def Binance.applyPriceUpdate (now : ℕ) (st : ConnState) (resultTicker : String)
    (resultPrice : ℚ) : ConnState :=
  let parsedTicker := Binance.parseTicker resultTicker
  let currentData := (mapGet st.prices parsedTicker).getD defaultTickerData
  let stored : TickerData :=
    { price := some resultPrice
      lastUpdated := now
      orders := currentData.orders }
  { st with prices := mapSet st.prices parsedTicker stored }

/-- OKX `parseTicker = (ticker) => ticker.replace('-USDT', '')`. -/
def OKX.parseTicker (ticker : String) : String := ticker.replace "-USDT" ""

/-- `OKX.updatePricesOrderBook` (OKX.ts lines 273–305). -/
def OKX.updatePricesOrderBook (now : ℕ) (st : ConnState) (ticker : String) : ConnState :=
  updatePricesWith OKX.parseTicker now st ticker

/-- The book payload `data.data[0]` of an OKX `books` channel push after parsing:
bid and ask changes plus the timestamp `ts` (OKX supplies no update id, so `ts`
plays the role of the consistency marker). -/
structure OkxBookData where
  bids : List (ℚ × ℚ)
  asks : List (ℚ × ℚ)
  ts : ℕ
deriving DecidableEq

/-- `OKX.processOrderBookUpdate` (OKX.ts lines 145–195); `ticker` is
`data.arg.instId`.  Note: there is no staleness or gap check — every update that
arrives once initialization is over is applied, and `lastUpdateId` is overwritten
with the update's timestamp unconditionally. -/
def OKX.processOrderBookUpdate (now : ℕ) (st : ConnState) (ticker : String)
    (d : OkxBookData) : ConnState :=
  if (mapGet st.isInitializing ticker).getD false then st
  else
    match mapGet st.orderBooks ticker with
    | none => st
    | some orderBook =>
      let bids₂ := if 0 < d.bids.length then applyChanges orderBook.bids d.bids
        else orderBook.bids
      let asks₂ := if 0 < d.asks.length then applyChanges orderBook.asks d.asks
        else orderBook.asks
      let orderBook₂ : OrderBookEntry := { lastUpdateId := d.ts, bids := bids₂, asks := asks₂ }
      OKX.updatePricesOrderBook now
        { st with orderBooks := mapSet st.orderBooks ticker orderBook₂ } ticker

/-- Kucoin `parseTicker = (ticker) => ticker.replace('-USDT', '')`. -/
def Kucoin.parseTicker (ticker : String) : String := ticker.replace "-USDT" ""

/-- `Kucoin.updatePricesOrderBook` (part_003 lines 332–364). -/
def Kucoin.updatePricesOrderBook (now : ℕ) (st : ConnState) (ticker : String) : ConnState :=
  updatePricesWith Kucoin.parseTicker now st ticker

/-- The `data` field of a Kucoin level2 message: the covered sequence range and
the bid/ask changes. -/
structure KucoinUpdateData where
  sequenceStart : ℕ
  sequenceEnd : ℕ
  bids : List (ℚ × ℚ)
  asks : List (ℚ × ℚ)
deriving DecidableEq

/-- `Kucoin.processOrderBookUpdate` (part_003 lines 207–254); `ticker` is
`data.topic.split(':')[1]`.  Note: `sequenceStart` is never examined — no gap
detection is performed; the changes are applied and `lastUpdateId` becomes
`sequenceEnd` unconditionally. -/
def Kucoin.processOrderBookUpdate (now : ℕ) (st : ConnState) (ticker : String)
    (d : KucoinUpdateData) : ConnState :=
  if (mapGet st.isInitializing ticker).getD false then st
  else
    match mapGet st.orderBooks ticker with
    | none => st
    | some orderBook =>
      let bids₂ := if 0 < d.bids.length then applyChanges orderBook.bids d.bids
        else orderBook.bids
      let asks₂ := if 0 < d.asks.length then applyChanges orderBook.asks d.asks
        else orderBook.asks
      let orderBook₂ : OrderBookEntry :=
        { lastUpdateId := d.sequenceEnd, bids := bids₂, asks := asks₂ }
      Kucoin.updatePricesOrderBook now
        { st with orderBooks := mapSet st.orderBooks ticker orderBook₂ } ticker

/-- Backpack `parseTicker = (ticker) => ticker.replace('_USDC', '')`. -/
def Backpack.parseTicker (ticker : String) : String := ticker.replace "_USDC" ""

/-- `Backpack.updatePricesOrderBook` (part_004 lines 306–338). -/
def Backpack.updatePricesOrderBook (now : ℕ) (st : ConnState) (ticker : String) : ConnState :=
  updatePricesWith Backpack.parseTicker now st ticker

/-- `Backpack.applyDepthUpdate` (part_004 lines 258–301): staleness check on
`parseInt(data.u)`, but — unlike Binance — no gap check on `data.U`. -/
def Backpack.applyDepthUpdate (now : ℕ) (st : ConnState) (ticker : String)
    (data : DepthUpdate) : ConnState :=
  match mapGet st.orderBooks ticker with
  | none => st
  | some orderBook =>
    if data.u ≤ orderBook.lastUpdateId then st
    else
      let bids₂ := if 0 < data.b.length then applyChanges orderBook.bids data.b
        else orderBook.bids
      let asks₂ := if 0 < data.a.length then applyChanges orderBook.asks data.a
        else orderBook.asks
      let orderBook₂ : OrderBookEntry := { lastUpdateId := data.u, bids := bids₂, asks := asks₂ }
      Backpack.updatePricesOrderBook now
        { st with orderBooks := mapSet st.orderBooks ticker orderBook₂ } ticker

/-- `Backpack.initializeOrderBook` (part_004 lines 163–235) from the point where
the snapshot has been fetched: install the snapshot, replay every buffered event
with `u` past the snapshot marker — with no validation of the first event —
publish, and clear the flag and buffer.  This round never restarts by itself
(only a thrown fetch error schedules a retry). -/
def Backpack.initializeOrderBook (now : ℕ) (st : ConnState) (ticker : String)
    (snapshot : Snapshot) (buffer : List DepthUpdate) : ConnState :=
  let installed : OrderBookEntry :=
    { lastUpdateId := snapshot.lastUpdateId
      bids := snapshotLadder snapshot.bids
      asks := snapshotLadder snapshot.asks }
  let st₁ := { st with orderBooks := mapSet st.orderBooks ticker installed }
  let validEvents := buffer.filter (fun event => snapshot.lastUpdateId < event.u)
  let st₂ := validEvents.foldl
    (fun acc event => Backpack.applyDepthUpdate now acc ticker event) st₁
  let st₃ := Backpack.updatePricesOrderBook now st₂ ticker
  { st₃ with
    isInitializing := mapSet st₃.isInitializing ticker false
    depthUpdateBuffers := mapSet st₃.depthUpdateBuffers ticker [] }

/-- One Kraken book (no consistency marker: `orderBooks` maps a symbol to
`{ bids, asks }` only). -/
structure KrakenBook where
  bids : List (ℚ × ℚ)
  asks : List (ℚ × ℚ)
deriving DecidableEq

/-- The ladder writes of `Kraken.processBookUpdate` (part_002 lines 146–170):
`qty === 0` deletes the price, otherwise the price is set to `qty`, on both
sides. -/
def Kraken.processBookUpdate (book : KrakenBook) (bidChanges askChanges : List (ℚ × ℚ)) :
    KrakenBook :=
  { bids := applyChanges book.bids bidChanges
    asks := applyChanges book.asks askChanges }

/-! ### The aggregator (src/app/page.tsx) -/

/-- The `priceMap` accumulation of `aggregateOrders` (page.tsx lines 151–158):
`const currentSize = priceMap.get(order.price) || 0; priceMap.set(order.price,
currentSize + order.size)` — `undefined || 0` and `0 || 0` both read as `0`,
i.e. `getD 0`. -/
def buildPriceMap (orders : List Order) : List (ℚ × ℚ) :=
  orders.foldl (fun m order => mapSet m order.price ((mapGet m order.price).getD 0 + order.size)) []

/-- `aggregateOrders` (page.tsx lines 151–164): sum sizes per price into a map,
convert back to an array and sort it — descending by price for bids, ascending
for asks.  The map's keys are distinct, so the comparison sort's result is the
unique sorted ordering, modelled by `List.insertionSort`. -/
def aggregateOrders (orders : List Order) (isBid : Bool) : List Order :=
  let entries := (buildPriceMap orders).map entryToOrder
  if isBid then List.insertionSort bidOrder entries
  else List.insertionSort askOrder entries

/-- `getSourcesForPrice` (page.tsx lines 212–236): walk the exchanges in entry
order (skipping those with no instance or no ticker data), pick the side's
orders, and record `exchangeName → total size at that price` whenever at least
one order matches the price exactly. -/
def getSourcesForPrice (exchanges : List (String × Option TickerData)) (price : ℚ)
    (isBid : Bool) : List (String × ℚ) :=
  exchanges.foldl (fun sources entry =>
    match entry.2 with
    | none => sources
    | some tickerData =>
      let orders := if isBid then tickerData.orders.bid else tickerData.orders.ask
      let matchingOrders := orders.filter (fun order => order.price = price)
      if 0 < matchingOrders.length then
        sources ++ [(entry.1, matchingOrders.foldl (fun sum order => sum + order.size) 0)]
      else sources) []

/-! ### Connector lifecycle: close, the retry timer and reconnect (OKX.ts) -/

/-- The lifecycle-relevant flags of the OKX connector (the Kucoin connector's
retry path, part_003 lines 259–305, is structurally identical): `isClosing`,
whether a `setTimeout(() => this.initializeOrderBook(ticker), 5000)` retry
(scheduled by the `catch` block of `initializeOrderBook` after a failed snapshot
fetch, OKX.ts line 244) is pending, and counters of REST snapshot fetches and
websocket reconnect attempts performed so far.  The book/price state installed by
a successful fetch is tracked by `ConnState` above and projected away here. -/
structure LifecycleState where
  isClosing : Bool
  retryScheduled : Bool
  fetchCount : ℕ
  reconnectCount : ℕ
deriving DecidableEq

/-- The externally observable lifecycle events: `close()` being called, the 5 s
retry timer firing (with the outcome of the snapshot fetch the re-entered
`initializeOrderBook` performs), and the websocket `onclose` handler running
with a close code. -/
inductive LifecycleEvent where
  | closeConn : LifecycleEvent
  | retryFires : Bool → LifecycleEvent
  | wsClosed : ℕ → LifecycleEvent
deriving DecidableEq

/-- Faithful transition table of the OKX connector (OKX.ts):
`close()` (lines 350–353) sets `isClosing` and closes the socket, and nothing
else — the class holds no handle to the retry timer, so the pending timer is not
cancelled.  When it fires, `initializeOrderBook` (lines 200–246) re-enters: it
reads no `isClosing` and, straight after marking the ticker initializing, issues
the REST snapshot request (`fetchOrderBookSnapshot`, the `axios.get` at line
253) — counted here as a fetch; if that fetch throws, the `catch` schedules
another retry, otherwise no retry remains pending.  The `onclose` handler
(lines 340–346) opens a new socket and calls `start()` only when
`!isClosing && code !== 1013`.  (Kucoin, part_003, has the same fetch-first
retry and the same `1013`-guarded reconnect.  Binance and Backpack likewise
cancel nothing on close, but their `initializeOrderBook` first awaits the
wait-for-first-buffered-update loop, which after `close()` never resolves —
their re-fired retry stalls in that 100 ms poll before reaching the fetch, so
the post-close fetch is exhibited on OKX/Kucoin.) -/
def lifecycleStep (st : LifecycleState) : LifecycleEvent → LifecycleState
  | LifecycleEvent.closeConn => { st with isClosing := true }
  | LifecycleEvent.retryFires fetchFails =>
      if st.retryScheduled then
        { st with fetchCount := st.fetchCount + 1, retryScheduled := fetchFails }
      else st
  | LifecycleEvent.wsClosed code =>
      if ¬ st.isClosing ∧ code ≠ 1013 then
        { st with reconnectCount := st.reconnectCount + 1 }
      else st

/-- Run a sequence of lifecycle events. -/
def lifecycleRun (st : LifecycleState) (events : List LifecycleEvent) : LifecycleState :=
  events.foldl lifecycleStep st

/-! ### Aggregation lemmas -/

/-- Total size contributed at price `p` by the orders of `l`. -/
def sumSizesAt (p : ℚ) (l : List Order) : ℚ :=
  ((l.filter (fun order => order.price = p)).map Order.size).sum

theorem keysNodup_foldl_mapSet {β : Type} (step : List (ℚ × ℚ) → β → List (ℚ × ℚ))
    (hstep : ∀ m b, keysNodup m → keysNodup (step m b)) :
    ∀ (l : List β) (m : List (ℚ × ℚ)), keysNodup m → keysNodup (l.foldl step m)
  | [], m, h => h
  | b :: l, m, h => keysNodup_foldl_mapSet step hstep l (step m b) (hstep m b h)

theorem keysNodup_buildPriceMap (orders : List Order) : keysNodup (buildPriceMap orders) :=
  keysNodup_foldl_mapSet _ (fun m order h => keysNodup_mapSet order.price _ h) orders []
    List.Pairwise.nil

theorem sumSizesAt_eq_zero {p : ℚ} {l : List Order} (h : p ∉ l.map Order.price) :
    sumSizesAt p l = 0 := by
  have hf : l.filter (fun order => order.price = p) = [] := by
    refine List.filter_eq_nil.mpr (fun o ho => ?_)
    simp only [decide_eq_true_eq]
    exact fun hc => h (List.mem_map.mpr ⟨o, ho, hc⟩)
  simp [sumSizesAt, hf]

theorem mapGet_foldl_priceMap (l : List Order) :
    ∀ (m : List (ℚ × ℚ)) (p : ℚ),
      mapGet (l.foldl
        (fun m order => mapSet m order.price ((mapGet m order.price).getD 0 + order.size)) m) p =
      if p ∈ l.map Order.price then some ((mapGet m p).getD 0 + sumSizesAt p l)
      else mapGet m p := by
  induction l with
  | nil => intro m p; simp
  | cons o l ih =>
      intro m p
      by_cases hp : o.price = p
      · subst hp
        rw [List.foldl_cons, ih]
        have hsum : sumSizesAt o.price (o :: l) = o.size + sumSizesAt o.price l := by
          simp [sumSizesAt, List.filter_cons]
        have hmm : o.price ∈ (o :: l).map Order.price := by simp
        rw [if_pos hmm, hsum]
        by_cases hmem : o.price ∈ l.map Order.price
        · rw [if_pos hmem, mapGet_mapSet_self]
          simp only [Option.getD_some]
          rw [add_assoc]
        · rw [if_neg hmem, mapGet_mapSet_self, sumSizesAt_eq_zero hmem, add_zero]
      · rw [List.foldl_cons, ih]
        have hget : mapGet (mapSet m o.price ((mapGet m o.price).getD 0 + o.size)) p
            = mapGet m p := mapGet_mapSet_ne m _ (fun hc => hp hc.symm)
        have hsum : sumSizesAt p (o :: l) = sumSizesAt p l := by
          simp [sumSizesAt, List.filter_cons, hp]
        have hmm : p ∈ (o :: l).map Order.price ↔ p ∈ l.map Order.price := by
          simp only [List.map_cons, List.mem_cons]
          constructor
          · rintro (hc | hc)
            · exact absurd hc.symm hp
            · exact hc
          · exact Or.inr
        rw [hget, hsum]
        by_cases hmem : p ∈ l.map Order.price
        · rw [if_pos hmem, if_pos (hmm.mpr hmem)]
        · rw [if_neg hmem, if_neg (fun hc => hmem (hmm.mp hc))]

theorem mapGet_buildPriceMap (orders : List Order) (p : ℚ) :
    mapGet (buildPriceMap orders) p =
      if p ∈ orders.map Order.price then some (sumSizesAt p orders) else none := by
  rw [buildPriceMap, mapGet_foldl_priceMap]
  simp [mapGet]

theorem buildPriceMap_perm {l₁ l₂ : List Order} (h : l₁.Perm l₂) :
    (buildPriceMap l₁).Perm (buildPriceMap l₂) := by
  refine mapExt_perm (keysNodup_buildPriceMap l₁) (keysNodup_buildPriceMap l₂) (fun p => ?_)
  rw [mapGet_buildPriceMap, mapGet_buildPriceMap]
  have hmem : (p ∈ l₁.map Order.price) ↔ (p ∈ l₂.map Order.price) :=
    (h.map Order.price).mem_iff
  have hsum : sumSizesAt p l₁ = sumSizesAt p l₂ := by
    unfold sumSizesAt
    exact ((h.filter _).map Order.size).sum_eq
  simp only [hmem, hsum]

theorem pairwise_priceNe_entries {m : List (ℚ × ℚ)} (h : keysNodup m) :
    List.Pairwise (fun a b : Order => a.price ≠ b.price) (m.map entryToOrder) :=
  List.pairwise_map.mpr (h.imp (fun hne => hne))

theorem pairwise_priceNe_symm :
    ∀ {a b : Order}, a.price ≠ b.price → b.price ≠ a.price := fun h => h.symm

theorem sorted_strict_of_sorted_of_ne {l : List Order}
    (hs : List.Pairwise bidOrder l)
    (hne : List.Pairwise (fun a b : Order => a.price ≠ b.price) l) :
    List.Pairwise bidStrict l :=
  (hs.and hne).imp (fun h => lt_of_le_of_ne h.1 (fun hc => h.2 hc.symm))

theorem sorted_strict_of_sorted_of_ne_ask {l : List Order}
    (hs : List.Pairwise askOrder l)
    (hne : List.Pairwise (fun a b : Order => a.price ≠ b.price) l) :
    List.Pairwise askStrict l :=
  (hs.and hne).imp (fun h => lt_of_le_of_ne h.1 h.2)

theorem aggregateOrders_sorted_bid (orders : List Order) :
    List.Pairwise bidStrict (aggregateOrders orders true) := by
  rw [aggregateOrders]
  simp only [if_true]
  refine sorted_strict_of_sorted_of_ne (List.sorted_insertionSort bidOrder _) ?_
  exact (List.Perm.pairwise_iff pairwise_priceNe_symm
    (List.perm_insertionSort bidOrder _)).mpr
    (pairwise_priceNe_entries (keysNodup_buildPriceMap orders))

theorem aggregateOrders_sorted_ask (orders : List Order) :
    List.Pairwise askStrict (aggregateOrders orders false) := by
  rw [aggregateOrders]
  simp only [Bool.false_eq_true, if_false]
  refine sorted_strict_of_sorted_of_ne_ask (List.sorted_insertionSort askOrder _) ?_
  exact (List.Perm.pairwise_iff pairwise_priceNe_symm
    (List.perm_insertionSort askOrder _)).mpr
    (pairwise_priceNe_entries (keysNodup_buildPriceMap orders))

theorem aggregateOrders_perm {l₁ l₂ : List Order} (h : l₁.Perm l₂) (isBid : Bool) :
    aggregateOrders l₁ isBid = aggregateOrders l₂ isBid := by
  have hperm : ((buildPriceMap l₁).map entryToOrder).Perm ((buildPriceMap l₂).map entryToOrder) :=
    (buildPriceMap_perm h).map entryToOrder
  cases isBid with
  | true =>
      have hp : (aggregateOrders l₁ true).Perm (aggregateOrders l₂ true) := by
        rw [aggregateOrders, aggregateOrders]
        simp only [if_true]
        exact ((List.perm_insertionSort bidOrder _).trans hperm).trans
          (List.perm_insertionSort bidOrder _).symm
      exact List.eq_of_perm_of_sorted hp (aggregateOrders_sorted_bid l₁)
        (aggregateOrders_sorted_bid l₂)
  | false =>
      have hp : (aggregateOrders l₁ false).Perm (aggregateOrders l₂ false) := by
        rw [aggregateOrders, aggregateOrders]
        simp only [Bool.false_eq_true, if_false]
        exact ((List.perm_insertionSort askOrder _).trans hperm).trans
          (List.perm_insertionSort askOrder _).symm
      exact List.eq_of_perm_of_sorted hp (aggregateOrders_sorted_ask l₁)
        (aggregateOrders_sorted_ask l₂)

/-! ### Ladder read lemmas -/

theorem ladderBids_sorted (depth : ℕ) {m : List (ℚ × ℚ)} (h : keysNodup m) :
    List.Pairwise bidStrict (ladderBids depth m) :=
  List.Pairwise.sublist (List.take_sublist depth _)
    (sorted_strict_of_sorted_of_ne (List.sorted_insertionSort bidOrder _)
      ((List.Perm.pairwise_iff pairwise_priceNe_symm (List.perm_insertionSort bidOrder _)).mpr
        (pairwise_priceNe_entries h)))

theorem ladderAsks_sorted (depth : ℕ) {m : List (ℚ × ℚ)} (h : keysNodup m) :
    List.Pairwise askStrict (ladderAsks depth m) :=
  List.Pairwise.sublist (List.take_sublist depth _)
    (sorted_strict_of_sorted_of_ne_ask (List.sorted_insertionSort askOrder _)
      ((List.Perm.pairwise_iff pairwise_priceNe_symm (List.perm_insertionSort askOrder _)).mpr
        (pairwise_priceNe_entries h)))

theorem ladderBids_length (depth : ℕ) (m : List (ℚ × ℚ)) :
    (ladderBids depth m).length ≤ depth := by
  rw [ladderBids, List.length_take]
  exact min_le_left _ _

theorem ladderAsks_length (depth : ℕ) (m : List (ℚ × ℚ)) :
    (ladderAsks depth m).length ≤ depth := by
  rw [ladderAsks, List.length_take]
  exact min_le_left _ _

/-! ### Ladder write lemmas -/

theorem mem_mapSet_eq_or {κ α : Type} [DecidableEq κ] {m : List (κ × α)} {k : κ} {v : α}
    {e : κ × α} (h : e ∈ mapSet m k v) : e = (k, v) ∨ e ∈ m := by
  induction m with
  | nil =>
      simp only [mapSet, List.mem_singleton] at h
      exact Or.inl h
  | cons hd rest ih =>
      by_cases hh : hd.1 = k
      · simp only [mapSet, hh, if_true, List.mem_cons] at h
        rcases h with h | h
        · exact Or.inl h
        · exact Or.inr (List.mem_cons_of_mem _ h)
      · simp only [mapSet, hh, if_false, List.mem_cons] at h
        rcases h with h | h
        · exact Or.inr (h ▸ List.mem_cons_self _ _)
        · rcases ih h with h2 | h2
          · exact Or.inl h2
          · exact Or.inr (List.mem_cons_of_mem _ h2)

theorem allPos_applyChanges {changes : List (ℚ × ℚ)} :
    ∀ {ladder : List (ℚ × ℚ)}, (∀ e ∈ ladder, 0 < e.2) → (∀ c ∈ changes, 0 ≤ c.2) →
      ∀ e ∈ applyChanges ladder changes, 0 < e.2 := by
  induction changes with
  | nil => intro ladder h _; exact h
  | cons c cs ih =>
      intro ladder h hc
      simp only [applyChanges, List.foldl_cons] at *
      refine ih ?_ (fun x hx => hc x (List.mem_cons_of_mem _ hx))
      by_cases hz : c.2 = 0
      · simp only [hz, if_true]
        exact fun e he => h e (mem_mapDelete he)
      · simp only [hz, if_false]
        intro e he
        rcases mem_mapSet_eq_or he with h2 | h2
        · rw [h2]
          exact lt_of_le_of_ne (hc c (List.mem_cons_self _ _)) (fun hh => hz hh.symm)
        · exact h e h2

theorem allPos_snapshotLadder_aux (levels : List (ℚ × ℚ)) :
    ∀ (m : List (ℚ × ℚ)), (∀ e ∈ m, 0 < e.2) →
      ∀ e ∈ levels.foldl (fun m lv => if 0 < lv.2 then mapSet m lv.1 lv.2 else m) m, 0 < e.2 := by
  induction levels with
  | nil => intro m h; exact h
  | cons lv ls ih =>
      intro m h
      rw [List.foldl_cons]
      refine ih _ ?_
      by_cases hp : 0 < lv.2
      · simp only [hp, if_true]
        intro e he
        rcases mem_mapSet_eq_or he with h2 | h2
        · rw [h2]; exact hp
        · exact h e h2
      · simpa [hp] using h

theorem allPos_snapshotLadder (levels : List (ℚ × ℚ)) :
    ∀ e ∈ snapshotLadder levels, 0 < e.2 :=
  allPos_snapshotLadder_aux levels [] (by simp)

theorem applyChanges_zero (ladder : List (ℚ × ℚ)) (p : ℚ) :
    applyChanges ladder [(p, 0)] = mapDelete ladder p := by
  simp [applyChanges]

theorem applyChanges_zero_then_pos (ladder : List (ℚ × ℚ)) (p sz : ℚ) (h : sz ≠ 0) :
    applyChanges ladder [(p, 0), (p, sz)] = mapSet (mapDelete ladder p) p sz := by
  simp [applyChanges, h]

/-! ### Frame lemmas for the publishing helper and the update handlers -/

/-- The stored `price` field read back from the `prices` map, with the same
defaulting as the source (`this.prices.get(t)` possibly undefined). -/
def storedPrice (prices : List (String × TickerData)) (ticker : String) : Option ℚ :=
  ((mapGet prices ticker).getD defaultTickerData).price

/-- The stored `orders` field read back from the `prices` map, with the same
defaulting as the source. -/
def storedOrders (prices : List (String × TickerData)) (ticker : String) : Orders :=
  ((mapGet prices ticker).getD defaultTickerData).orders

theorem updatePricesWith_orderBooks (parse : String → String) (now : ℕ) (st : ConnState)
    (ticker : String) : (updatePricesWith parse now st ticker).orderBooks = st.orderBooks := by
  unfold updatePricesWith
  cases hm : mapGet st.orderBooks ticker <;> rfl

theorem updatePricesWith_isInitializing (parse : String → String) (now : ℕ) (st : ConnState)
    (ticker : String) :
    (updatePricesWith parse now st ticker).isInitializing = st.isInitializing := by
  unfold updatePricesWith
  cases hm : mapGet st.orderBooks ticker <;> rfl

theorem updatePricesWith_buffers (parse : String → String) (now : ℕ) (st : ConnState)
    (ticker : String) :
    (updatePricesWith parse now st ticker).depthUpdateBuffers = st.depthUpdateBuffers := by
  unfold updatePricesWith
  cases hm : mapGet st.orderBooks ticker <;> rfl

theorem updatePricesWith_depth (parse : String → String) (now : ℕ) (st : ConnState)
    (ticker : String) :
    (updatePricesWith parse now st ticker).orderBookDepth = st.orderBookDepth := by
  unfold updatePricesWith
  cases hm : mapGet st.orderBooks ticker <;> rfl

theorem updatePricesWith_storedPrice (parse : String → String) (now : ℕ) (st : ConnState)
    (ticker q : String) :
    storedPrice (updatePricesWith parse now st ticker).prices q = storedPrice st.prices q := by
  unfold updatePricesWith
  cases hm : mapGet st.orderBooks ticker with
  | none => rfl
  | some orderBook =>
      simp only [storedPrice]
      by_cases hq : q = parse ticker
      · subst hq
        rw [mapGet_mapSet_self]
        cases mapGet st.prices (parse ticker) <;> rfl
      · rw [mapGet_mapSet_ne _ _ hq]

theorem applyPriceUpdate_storedOrders (now : ℕ) (st : ConnState) (ticker q : String)
    (price : ℚ) :
    storedOrders (Binance.applyPriceUpdate now st ticker price).prices q
      = storedOrders st.prices q := by
  unfold Binance.applyPriceUpdate
  simp only [storedOrders]
  by_cases hq : q = Binance.parseTicker ticker
  · subst hq
    rw [mapGet_mapSet_self]
    cases mapGet st.prices (Binance.parseTicker ticker) <;> rfl
  · rw [mapGet_mapSet_ne _ _ hq]

/-! ### Branch lemmas for Binance.applyDepthUpdate -/

theorem Binance.applyDepthUpdate_none {st : ConnState} {ticker : String} (now : ℕ)
    (data : DepthUpdate) (hm : mapGet st.orderBooks ticker = none) :
    Binance.applyDepthUpdate now st ticker data = st := by
  unfold Binance.applyDepthUpdate
  rw [hm]

theorem Binance.applyDepthUpdate_stale {st : ConnState} {ticker : String} (now : ℕ)
    {data : DepthUpdate} {orderBook : OrderBookEntry}
    (hm : mapGet st.orderBooks ticker = some orderBook)
    (hu : data.u ≤ orderBook.lastUpdateId) :
    Binance.applyDepthUpdate now st ticker data = st := by
  unfold Binance.applyDepthUpdate
  rw [hm]
  simp [hu]

theorem Binance.applyDepthUpdate_gap {st : ConnState} {ticker : String} (now : ℕ)
    {data : DepthUpdate} {orderBook : OrderBookEntry}
    (hm : mapGet st.orderBooks ticker = some orderBook)
    (hu : orderBook.lastUpdateId < data.u)
    (hU : orderBook.lastUpdateId + 1 < data.U) :
    Binance.applyDepthUpdate now st ticker data =
      { st with
        isInitializing := mapSet st.isInitializing ticker true
        depthUpdateBuffers := mapSet st.depthUpdateBuffers ticker [] } := by
  unfold Binance.applyDepthUpdate
  rw [hm]
  simp [Nat.not_le.mpr hu, hU]

theorem Binance.applyDepthUpdate_apply {st : ConnState} {ticker : String} (now : ℕ)
    {data : DepthUpdate} {orderBook : OrderBookEntry}
    (hm : mapGet st.orderBooks ticker = some orderBook)
    (hu : orderBook.lastUpdateId < data.u)
    (hU : ¬ orderBook.lastUpdateId + 1 < data.U) :
    Binance.applyDepthUpdate now st ticker data =
      Binance.updatePricesOrderBook now
        { st with
            orderBooks := mapSet st.orderBooks ticker
              (OrderBookEntry.mk data.u (applyChanges orderBook.bids data.b)
                (applyChanges orderBook.asks data.a)) }
        ticker := by
  unfold Binance.applyDepthUpdate
  rw [hm]
  simp [Nat.not_le.mpr hu, hU]

theorem Binance.applyDepthUpdate_idem (now₁ now₂ : ℕ) (st : ConnState) (ticker : String)
    (data : DepthUpdate) :
    Binance.applyDepthUpdate now₂ (Binance.applyDepthUpdate now₁ st ticker data) ticker data
      = Binance.applyDepthUpdate now₁ st ticker data := by
  cases hm : mapGet st.orderBooks ticker with
  | none =>
      rw [Binance.applyDepthUpdate_none now₁ data hm, Binance.applyDepthUpdate_none now₂ data hm]
  | some orderBook =>
      by_cases hu : data.u ≤ orderBook.lastUpdateId
      · rw [Binance.applyDepthUpdate_stale now₁ hm hu, Binance.applyDepthUpdate_stale now₂ hm hu]
      · have hu₂ : orderBook.lastUpdateId < data.u := Nat.not_le.mp hu
        by_cases hU : orderBook.lastUpdateId + 1 < data.U
        · have hm₂ : mapGet (ConnState.mk st.orderBooks st.prices
              (mapSet st.isInitializing ticker true)
              (mapSet st.depthUpdateBuffers ticker []) st.orderBookDepth).orderBooks ticker
              = some orderBook := hm
          rw [Binance.applyDepthUpdate_gap now₁ hm hu₂ hU,
            Binance.applyDepthUpdate_gap now₂ hm₂ hu₂ hU]
          simp [mapSet_mapSet_self]
        · rw [Binance.applyDepthUpdate_apply now₁ hm hu₂ hU]
          have hbooks :
              (Binance.updatePricesOrderBook now₁
                { st with
                    orderBooks := mapSet st.orderBooks ticker
                      (OrderBookEntry.mk data.u (applyChanges orderBook.bids data.b)
                        (applyChanges orderBook.asks data.a)) }
                ticker).orderBooks
                = mapSet st.orderBooks ticker
                    (OrderBookEntry.mk data.u (applyChanges orderBook.bids data.b)
                      (applyChanges orderBook.asks data.a)) :=
            updatePricesWith_orderBooks _ _ _ _
          have hm₃ : mapGet (Binance.updatePricesOrderBook now₁
              { st with
                  orderBooks := mapSet st.orderBooks ticker
                    (OrderBookEntry.mk data.u (applyChanges orderBook.bids data.b)
                      (applyChanges orderBook.asks data.a)) }
              ticker).orderBooks ticker
              = some (OrderBookEntry.mk data.u (applyChanges orderBook.bids data.b)
                  (applyChanges orderBook.asks data.a)) := by
            rw [hbooks]
            exact mapGet_mapSet_self _ _ _
          exact Binance.applyDepthUpdate_stale now₂ hm₃ (le_refl data.u)

theorem Binance.processDepthUpdate_initializing {st : ConnState} {data : DepthUpdate} (now : ℕ)
    (h : (mapGet st.isInitializing data.s).getD false = true) :
    Binance.processDepthUpdate now st data =
      { st with
          depthUpdateBuffers := mapSet st.depthUpdateBuffers data.s
            ((mapGet st.depthUpdateBuffers data.s).getD [] ++ [data]) } := by
  unfold Binance.processDepthUpdate
  simp [h]

theorem okx_process_initializing_noop {st : ConnState} {ticker : String} (now : ℕ)
    (d : OkxBookData) (h : (mapGet st.isInitializing ticker).getD false = true) :
    OKX.processOrderBookUpdate now st ticker d = st := by
  unfold OKX.processOrderBookUpdate
  simp [h]

theorem okx_process_no_book_noop {st : ConnState} {ticker : String} (now : ℕ)
    (d : OkxBookData) (h : mapGet st.orderBooks ticker = none) :
    OKX.processOrderBookUpdate now st ticker d = st := by
  unfold OKX.processOrderBookUpdate
  by_cases hi : (mapGet st.isInitializing ticker).getD false
  · simp [hi]
  · simp only [hi, Bool.false_eq_true, if_false]
    rw [h]

theorem kucoin_process_initializing_noop {st : ConnState} {ticker : String} (now : ℕ)
    (d : KucoinUpdateData) (h : (mapGet st.isInitializing ticker).getD false = true) :
    Kucoin.processOrderBookUpdate now st ticker d = st := by
  unfold Kucoin.processOrderBookUpdate
  simp [h]

theorem kucoin_process_no_book_noop {st : ConnState} {ticker : String} (now : ℕ)
    (d : KucoinUpdateData) (h : mapGet st.orderBooks ticker = none) :
    Kucoin.processOrderBookUpdate now st ticker d = st := by
  unfold Kucoin.processOrderBookUpdate
  by_cases hi : (mapGet st.isInitializing ticker).getD false
  · simp [hi]
  · simp only [hi, Bool.false_eq_true, if_false]
    rw [h]

/-! ### Claim theorems -/

/-- Claim C1, amended to the connectors that perform the staleness check (the claim
as stated fails on OKX, see the counterexample): for the Binance book, an incoming
depth update whose final id `u` is at most the book's `lastUpdateId` leaves the
connector state completely unchanged, and applying any update a second time is a
no-op (in particular once `lastUpdateId` has advanced to the update's `u`, the
second application returns through the staleness check). -/
theorem C1_binance_stale_update_noop_and_idempotent (now₁ now₂ : ℕ) (st : ConnState)
    (ticker : String) (data : DepthUpdate) :
    (∀ orderBook : OrderBookEntry, mapGet st.orderBooks ticker = some orderBook →
      data.u ≤ orderBook.lastUpdateId →
      Binance.applyDepthUpdate now₁ st ticker data = st) ∧
    Binance.applyDepthUpdate now₂ (Binance.applyDepthUpdate now₁ st ticker data) ticker data
      = Binance.applyDepthUpdate now₁ st ticker data :=
  ⟨fun _ hm hu => Binance.applyDepthUpdate_stale now₁ hm hu,
   Binance.applyDepthUpdate_idem now₁ now₂ st ticker data⟩

/-- Witness for C1: a live book at marker 10 receives an update with `u = 10 ≤ 10`
and is left untouched. -/
theorem C1_witness :
    Binance.applyDepthUpdate 7
      (ConnState.mk [("BTCUSDT", OrderBookEntry.mk 10 [(100, 2)] [])] []
        [("BTCUSDT", false)] [] 20)
      "BTCUSDT" (DepthUpdate.mk "BTCUSDT" 9 10 [(100, 0)] []) =
    ConnState.mk [("BTCUSDT", OrderBookEntry.mk 10 [(100, 2)] [])] []
      [("BTCUSDT", false)] [] 20 :=
  (C1_binance_stale_update_noop_and_idempotent 7 8
      (ConnState.mk [("BTCUSDT", OrderBookEntry.mk 10 [(100, 2)] [])] []
        [("BTCUSDT", false)] [] 20)
      "BTCUSDT" (DepthUpdate.mk "BTCUSDT" 9 10 [(100, 0)] [])).1
    (OrderBookEntry.mk 10 [(100, 2)] []) (by decide) (by decide)

/-- Counterexample to C1 as stated: the OKX connector performs no staleness check.
A live OKX book at marker 10 holding bid level 100 ↦ 2 receives an update whose
(single) marker is the timestamp 5 ≤ 10; the update is nevertheless applied — the
level is deleted and the marker is overwritten with 5 — so the book does not stay
unchanged. -/
theorem C1_okx_applies_stale_update :
    (5 : ℕ) ≤ 10 ∧
    (OKX.processOrderBookUpdate 0
      (ConnState.mk [("BTC-USDT", OrderBookEntry.mk 10 [(100, 2)] [])] []
        [("BTC-USDT", false)] [] 20)
      "BTC-USDT" (OkxBookData.mk [(100, 0)] [] 5)).orderBooks
      = [("BTC-USDT", OrderBookEntry.mk 5 [] [])] ∧
    (OKX.processOrderBookUpdate 0
      (ConnState.mk [("BTC-USDT", OrderBookEntry.mk 10 [(100, 2)] [])] []
        [("BTC-USDT", false)] [] 20)
      "BTC-USDT" (OkxBookData.mk [(100, 0)] [] 5)).orderBooks
      ≠ [("BTC-USDT", OrderBookEntry.mk 10 [(100, 2)] [])] := by
  refine ⟨by decide, by decide, by decide⟩

/-- Claim C2, amended to the Binance connector (the claim as stated fails on
Kucoin, see the counterexample): when a live Binance book at marker `m` receives
an update with `u > m` and first id `U > m + 1`, the update is not applied — the
order books are unchanged — and the ticker is flagged as initializing again
(RESYNCING); while that flag is set, any further incoming update is buffered and
the order books stay untouched. -/
theorem C2_binance_gap_triggers_resync (now : ℕ) (st : ConnState) (ticker : String)
    (data : DepthUpdate) (orderBook : OrderBookEntry)
    (hm : mapGet st.orderBooks ticker = some orderBook)
    (hu : orderBook.lastUpdateId < data.u)
    (hU : orderBook.lastUpdateId + 1 < data.U) :
    (Binance.applyDepthUpdate now st ticker data).orderBooks = st.orderBooks ∧
    mapGet (Binance.applyDepthUpdate now st ticker data).isInitializing ticker = some true ∧
    ∀ (now₂ : ℕ) (data₂ : DepthUpdate), data₂.s = ticker →
      (Binance.processDepthUpdate now₂
        (Binance.applyDepthUpdate now st ticker data) data₂).orderBooks
        = (Binance.applyDepthUpdate now st ticker data).orderBooks := by
  rw [Binance.applyDepthUpdate_gap now hm hu hU]
  refine ⟨rfl, mapGet_mapSet_self _ _ _, ?_⟩
  intro now₂ data₂ hs
  have hinit : (mapGet (ConnState.mk st.orderBooks st.prices
      (mapSet st.isInitializing ticker true)
      (mapSet st.depthUpdateBuffers ticker []) st.orderBookDepth).isInitializing
        data₂.s).getD false = true := by
    rw [hs]
    simp only [mapGet_mapSet_self]
    rfl
  rw [Binance.processDepthUpdate_initializing now₂ hinit]

/-- Witness for C2: a live Binance book at marker 10 receives an update covering
ids 13–14 (gap: 13 > 11); the books are untouched, the ticker is re-flagged as
initializing, and a following update is only buffered. -/
theorem C2_witness :
    (Binance.applyDepthUpdate 0
      (ConnState.mk [("BTCUSDT", OrderBookEntry.mk 10 [(100, 2)] [])] []
        [("BTCUSDT", false)] [] 20)
      "BTCUSDT" (DepthUpdate.mk "BTCUSDT" 13 14 [(100, 0)] [])).orderBooks
      = [("BTCUSDT", OrderBookEntry.mk 10 [(100, 2)] [])] ∧
    mapGet (Binance.applyDepthUpdate 0
      (ConnState.mk [("BTCUSDT", OrderBookEntry.mk 10 [(100, 2)] [])] []
        [("BTCUSDT", false)] [] 20)
      "BTCUSDT" (DepthUpdate.mk "BTCUSDT" 13 14 [(100, 0)] [])).isInitializing "BTCUSDT"
      = some true ∧
    (Binance.processDepthUpdate 1
      (Binance.applyDepthUpdate 0
        (ConnState.mk [("BTCUSDT", OrderBookEntry.mk 10 [(100, 2)] [])] []
          [("BTCUSDT", false)] [] 20)
        "BTCUSDT" (DepthUpdate.mk "BTCUSDT" 13 14 [(100, 0)] []))
      (DepthUpdate.mk "BTCUSDT" 15 16 [(99, 1)] [])).orderBooks
      = (Binance.applyDepthUpdate 0
        (ConnState.mk [("BTCUSDT", OrderBookEntry.mk 10 [(100, 2)] [])] []
          [("BTCUSDT", false)] [] 20)
        "BTCUSDT" (DepthUpdate.mk "BTCUSDT" 13 14 [(100, 0)] [])).orderBooks := by
  have h := C2_binance_gap_triggers_resync 0
    (ConnState.mk [("BTCUSDT", OrderBookEntry.mk 10 [(100, 2)] [])] []
      [("BTCUSDT", false)] [] 20)
    "BTCUSDT" (DepthUpdate.mk "BTCUSDT" 13 14 [(100, 0)] [])
    (OrderBookEntry.mk 10 [(100, 2)] []) (by decide) (by decide) (by decide)
  exact ⟨h.1, h.2.1, h.2.2 1 (DepthUpdate.mk "BTCUSDT" 15 16 [(99, 1)] []) rfl⟩

/-- Counterexample to C2 as stated: the Kucoin connector performs no gap
detection.  A live Kucoin book at marker 10 receives an update covering sequences
13–14 (its start marker 13 exceeds 10 + 1 by 2); the update is applied anyway —
the bid level is deleted and the marker jumps to 14 — and the connector does not
enter any resynchronisation state (`isInitializing` stays `false`). -/
theorem C2_kucoin_ignores_gap :
    10 + 1 < 13 ∧
    (Kucoin.processOrderBookUpdate 0
      (ConnState.mk [("BTC-USDT", OrderBookEntry.mk 10 [(100, 2)] [])] []
        [("BTC-USDT", false)] [] 20)
      "BTC-USDT" (KucoinUpdateData.mk 13 14 [(100, 0)] [])).orderBooks
      = [("BTC-USDT", OrderBookEntry.mk 14 [] [])] ∧
    mapGet (Kucoin.processOrderBookUpdate 0
      (ConnState.mk [("BTC-USDT", OrderBookEntry.mk 10 [(100, 2)] [])] []
        [("BTC-USDT", false)] [] 20)
      "BTC-USDT" (KucoinUpdateData.mk 13 14 [(100, 0)] [])).isInitializing "BTC-USDT"
      = some false := by
  refine ⟨by decide, by decide, by decide⟩

/-- Claim C3: every ladder write preserves the `size > 0` invariant.  Installing a
snapshot only ever stores levels with positive size; applying incremental changes
(whose quantities parse to non-negative decimals) keeps every stored size
positive; a change with size 0 removes exactly that price key and no other; and
re-adding a previously deleted price with a positive size restores it.  The same
per-level logic is shared by `Binance.applyDepthUpdate` and
`Kraken.processBookUpdate`, restated for the latter in the final conjunct. -/
theorem C3_ladder_writes_preserve_positive_sizes :
    (∀ levels : List (ℚ × ℚ), ∀ e ∈ snapshotLadder levels, 0 < e.2) ∧
    (∀ ladder changes : List (ℚ × ℚ), (∀ e ∈ ladder, 0 < e.2) → (∀ c ∈ changes, 0 ≤ c.2) →
      ∀ e ∈ applyChanges ladder changes, 0 < e.2) ∧
    (∀ (ladder : List (ℚ × ℚ)) (p : ℚ), keysNodup ladder →
      mapGet (applyChanges ladder [(p, 0)]) p = none) ∧
    (∀ (ladder : List (ℚ × ℚ)) (p q : ℚ), q ≠ p →
      mapGet (applyChanges ladder [(p, 0)]) q = mapGet ladder q) ∧
    (∀ (ladder : List (ℚ × ℚ)) (p sz : ℚ), 0 < sz →
      mapGet (applyChanges ladder [(p, 0), (p, sz)]) p = some sz) ∧
    (∀ (book : KrakenBook) (bidChanges askChanges : List (ℚ × ℚ)),
      (∀ e ∈ book.bids, 0 < e.2) → (∀ e ∈ book.asks, 0 < e.2) →
      (∀ c ∈ bidChanges, 0 ≤ c.2) → (∀ c ∈ askChanges, 0 ≤ c.2) →
      (∀ e ∈ (Kraken.processBookUpdate book bidChanges askChanges).bids, 0 < e.2) ∧
      (∀ e ∈ (Kraken.processBookUpdate book bidChanges askChanges).asks, 0 < e.2)) := by
  refine ⟨allPos_snapshotLadder, fun ladder changes h hc => allPos_applyChanges h hc,
    ?_, ?_, ?_, ?_⟩
  · intro ladder p hn
    rw [applyChanges_zero]
    exact mapGet_mapDelete_self p hn
  · intro ladder p q hq
    rw [applyChanges_zero]
    exact mapGet_mapDelete_ne ladder hq
  · intro ladder p sz hsz
    rw [applyChanges_zero_then_pos ladder p sz (ne_of_gt hsz)]
    exact mapGet_mapSet_self _ _ _
  · intro book bidChanges askChanges hb ha hcb hca
    exact ⟨allPos_applyChanges hb hcb, allPos_applyChanges ha hca⟩

/-- Witness for C3: on the concrete ladder 100 ↦ 2, a size-0 change deletes key
100, re-adding 100 ↦ 3 restores it, a neighbouring key survives the deletion, the
snapshot conjunct keeps a mixed snapshot positive at a concrete level, and the
preservation conjunct yields positivity of a concrete stored level. -/
theorem C3_witness :
    mapGet (applyChanges [((100 : ℚ), (2 : ℚ))] [(100, 0)]) 100 = none ∧
    mapGet (applyChanges [((100 : ℚ), (2 : ℚ))] [(100, 0), (100, 3)]) 100 = some 3 ∧
    mapGet (applyChanges [((100 : ℚ), (2 : ℚ)), (99, 1)] [(100, 0)]) 99 = mapGet
      [((100 : ℚ), (2 : ℚ)), (99, 1)] 99 ∧
    (0 : ℚ) < (2 : ℚ) ∧
    (0 : ℚ) < (3 : ℚ) := by
  refine ⟨C3_ladder_writes_preserve_positive_sizes.2.2.1 [(100, 2)] 100 (by decide),
    C3_ladder_writes_preserve_positive_sizes.2.2.2.2.1 [(100, 2)] 100 3 (by decide),
    C3_ladder_writes_preserve_positive_sizes.2.2.2.1 [(100, 2), (99, 1)] 100 99 (by decide),
    C3_ladder_writes_preserve_positive_sizes.1 [(100, 2), (101, 0)] (100, 2) (by decide),
    (C3_ladder_writes_preserve_positive_sizes.2.2.2.2.2
      (KrakenBook.mk [(100, 2)] []) [(101, 3)] [] (by decide) (by decide) (by decide)
      (by decide)).1 (101, 3) (by decide)⟩

/-- Claim C9: the order-book track and the price track are frame-independent.
Publishing an order book (`updatePricesOrderBook`, and `applyDepthUpdate` in every
branch) never changes any stored `price` field, and storing a price update
(`connect`'s `onmessage` handler) never changes any stored `orders` nor the raw
order books. -/
theorem C9_price_and_book_tracks_frame_independent (now : ℕ) (st : ConnState)
    (ticker q : String) (data : DepthUpdate) (price : ℚ) :
    storedPrice (Binance.updatePricesOrderBook now st ticker).prices q
      = storedPrice st.prices q ∧
    storedPrice (Binance.applyDepthUpdate now st ticker data).prices q
      = storedPrice st.prices q ∧
    storedOrders (Binance.applyPriceUpdate now st ticker price).prices q
      = storedOrders st.prices q ∧
    (Binance.applyPriceUpdate now st ticker price).orderBooks = st.orderBooks := by
  refine ⟨updatePricesWith_storedPrice _ _ _ _ _, ?_,
    applyPriceUpdate_storedOrders _ _ _ _ _, rfl⟩
  cases hm : mapGet st.orderBooks ticker with
  | none => rw [Binance.applyDepthUpdate_none now data hm]
  | some orderBook =>
      by_cases hu : data.u ≤ orderBook.lastUpdateId
      · rw [Binance.applyDepthUpdate_stale now hm hu]
      · by_cases hU : orderBook.lastUpdateId + 1 < data.U
        · rw [Binance.applyDepthUpdate_gap now hm (Nat.not_le.mp hu) hU]
        · rw [Binance.applyDepthUpdate_apply now hm (Nat.not_le.mp hu) hU]
          exact updatePricesWith_storedPrice _ _ _ _ _

/-- Claim C10: an incremental update for a ticker with no initialized order book
(no snapshot installed, unknown ticker, or still flagged as initializing) is a
complete no-op on the connector state, for Binance, OKX and Kucoin alike. -/
theorem C10_uninitialized_book_update_noop (now : ℕ) (st : ConnState) (ticker : String)
    (data : DepthUpdate) (okxData : OkxBookData) (kucoinData : KucoinUpdateData) :
    (mapGet st.orderBooks ticker = none →
      Binance.applyDepthUpdate now st ticker data = st) ∧
    (mapGet st.orderBooks ticker = none →
      OKX.processOrderBookUpdate now st ticker okxData = st) ∧
    ((mapGet st.isInitializing ticker).getD false = true →
      OKX.processOrderBookUpdate now st ticker okxData = st) ∧
    (mapGet st.orderBooks ticker = none →
      Kucoin.processOrderBookUpdate now st ticker kucoinData = st) ∧
    ((mapGet st.isInitializing ticker).getD false = true →
      Kucoin.processOrderBookUpdate now st ticker kucoinData = st) :=
  ⟨fun hm => Binance.applyDepthUpdate_none now data hm,
   fun hm => okx_process_no_book_noop now okxData hm,
   fun hi => okx_process_initializing_noop now okxData hi,
   fun hm => kucoin_process_no_book_noop now kucoinData hm,
   fun hi => kucoin_process_initializing_noop now kucoinData hi⟩

/-- Witness for C10: a connector that tracks no book for "ETHUSDT" ignores a depth
update for it, on all three exchanges. -/
theorem C10_witness :
    Binance.applyDepthUpdate 3
      (ConnState.mk [] [] [] [] 20) "ETHUSDT"
      (DepthUpdate.mk "ETHUSDT" 1 2 [(100, 1)] []) = ConnState.mk [] [] [] [] 20 ∧
    OKX.processOrderBookUpdate 3
      (ConnState.mk [] [] [] [] 20) "ETH-USDT"
      (OkxBookData.mk [(100, 1)] [] 2) = ConnState.mk [] [] [] [] 20 ∧
    Kucoin.processOrderBookUpdate 3
      (ConnState.mk [] [] [] [] 20) "ETH-USDT"
      (KucoinUpdateData.mk 1 2 [(100, 1)] []) = ConnState.mk [] [] [] [] 20 := by
  have h := C10_uninitialized_book_update_noop 3 (ConnState.mk [] [] [] [] 20) "ETHUSDT"
    (DepthUpdate.mk "ETHUSDT" 1 2 [(100, 1)] [])
    (OkxBookData.mk [(100, 1)] [] 2) (KucoinUpdateData.mk 1 2 [(100, 1)] [])
  have h₂ := C10_uninitialized_book_update_noop 3 (ConnState.mk [] [] [] [] 20) "ETH-USDT"
    (DepthUpdate.mk "ETHUSDT" 1 2 [(100, 1)] [])
    (OkxBookData.mk [(100, 1)] [] 2) (KucoinUpdateData.mk 1 2 [(100, 1)] [])
  exact ⟨h.1 (by decide), h₂.2.1 (by decide), h₂.2.2.2.1 (by decide)⟩

/-- Projection of an initialization round onto the resulting state, when the round
completed rather than restarted. -/
def InitResult.doneState : InitResult → Option ConnState
  | InitResult.restart => none
  | InitResult.done st => some st

/-- Claim C4, amended to the Binance connector (the claim as stated fails on
Backpack, see the counterexample): after installing a snapshot with marker `m`,
if the first buffered event that survives the `u > m` filter does not straddle
`m + 1` (`U ≤ m + 1 ≤ u`), the round restarts — the snapshot is discarded.  And
the spec's scenario holds on Binance: with snapshot marker 500 and buffered
updates covering 498–501 and 502–505, both updates are applied in order and the
final marker is 505 (the first deletes bid 100, the second adds bid 102). -/
theorem C4_binance_first_event_validation_and_replay (now : ℕ) (st : ConnState)
    (ticker : String) (snapshot : Snapshot) (buffer : List DepthUpdate)
    (firstValidEvent : DepthUpdate) (rest : List DepthUpdate)
    (hf : buffer.filter (fun event => decide (snapshot.lastUpdateId < event.u))
        = firstValidEvent :: rest)
    (hv : ¬ (firstValidEvent.U ≤ snapshot.lastUpdateId + 1 ∧
        snapshot.lastUpdateId + 1 ≤ firstValidEvent.u)) :
    Binance.initializeOrderBook now st ticker snapshot buffer = InitResult.restart ∧
    ((Binance.initializeOrderBook 0 (ConnState.mk [] [] [("BTCUSDT", true)] [] 20)
        "BTCUSDT" (Snapshot.mk 500 [(100, 2)] [(101, 3)])
        [DepthUpdate.mk "BTCUSDT" 498 501 [(100, 0)] [],
         DepthUpdate.mk "BTCUSDT" 502 505 [(102, 7)] []]).doneState).map
      ConnState.orderBooks
      = some [("BTCUSDT", OrderBookEntry.mk 505 [(102, 7)] [(101, 3)])] := by
  constructor
  · unfold Binance.initializeOrderBook
    rw [hf]
    simp only [if_neg hv]
  · decide

/-- Witness for C4: a snapshot at marker 500 together with a single buffered
event covering 503–505 (which survives the filter but does not straddle 501)
makes the Binance round restart. -/
theorem C4_witness :
    Binance.initializeOrderBook 0 (ConnState.mk [] [] [("BTCUSDT", true)] [] 20)
      "BTCUSDT" (Snapshot.mk 500 [(100, 2)] [])
      [DepthUpdate.mk "BTCUSDT" 503 505 [(102, 7)] []] = InitResult.restart :=
  (C4_binance_first_event_validation_and_replay 0
    (ConnState.mk [] [] [("BTCUSDT", true)] [] 20) "BTCUSDT"
    (Snapshot.mk 500 [(100, 2)] []) [DepthUpdate.mk "BTCUSDT" 503 505 [(102, 7)] []]
    (DepthUpdate.mk "BTCUSDT" 503 505 [(102, 7)] []) [] (by decide) (by decide)).1

/-- Counterexample to C4 as stated: the Backpack connector never validates the
first replayed event.  With snapshot marker 500 and a single buffered event
covering 503–505 — which does not straddle 501 — the round still completes: the
event is applied, the final marker is 505, and the ticker is marked initialized
instead of the snapshot being discarded. -/
theorem C4_backpack_skips_validation :
    ¬ (503 ≤ 500 + 1) ∧
    (Backpack.initializeOrderBook 0 (ConnState.mk [] [] [("BTC_USDC", true)] [] 20)
      "BTC_USDC" (Snapshot.mk 500 [(100, 2)] [])
      [DepthUpdate.mk "BTC_USDC" 503 505 [(102, 7)] []]).orderBooks
      = [("BTC_USDC", OrderBookEntry.mk 505 [(100, 2), (102, 7)] [])] ∧
    mapGet (Backpack.initializeOrderBook 0 (ConnState.mk [] [] [("BTC_USDC", true)] [] 20)
      "BTC_USDC" (Snapshot.mk 500 [(100, 2)] [])
      [DepthUpdate.mk "BTC_USDC" 503 505 [(102, 7)] []]).isInitializing "BTC_USDC"
      = some false := by
  refine ⟨by decide, by decide, by decide⟩

/-- Claim C5: aggregation sums the sizes of identical prices across exchanges into
one combined level, and the per-price source query attributes the contributions:
bid 100 ↦ 2 from exchange A and 100 ↦ 3 from exchange B aggregate to the single
level 100 ↦ 5 with sources A ↦ 2, B ↦ 3. -/
theorem C5_aggregation_sums_and_attributes_sources :
    aggregateOrders ([Order.mk 100 2] ++ [Order.mk 100 3]) true = [Order.mk 100 5] ∧
    getSourcesForPrice
      [("A", some (TickerData.mk none 0 (Orders.mk [Order.mk 100 2] [] none))),
       ("B", some (TickerData.mk none 0 (Orders.mk [Order.mk 100 3] [] none)))] 100 true
      = [("A", 2), ("B", 3)] := by
  constructor
  · norm_num [aggregateOrders, buildPriceMap, mapSet, mapGet, entryToOrder, bidOrder]
  · norm_num [getSourcesForPrice]

/-- Claim C6: aggregation is commutative and order-independent — merging the
exchanges' order arrays in any permutation of exchange order produces the same
aggregated list (same prices, same summed sizes, same sorted order), on either
side. -/
theorem C6_aggregation_order_independent (books₁ books₂ : List (List Order))
    (hp : books₁.Perm books₂) (isBid : Bool) :
    aggregateOrders books₁.flatten isBid = aggregateOrders books₂.flatten isBid :=
  aggregateOrders_perm hp.flatten isBid

/-- Witness for C6: swapping the two exchanges' books leaves the aggregated bid
list unchanged. -/
theorem C6_witness :
    ([[Order.mk 100 2, Order.mk 99 1], [Order.mk 100 3]] : List (List Order)).Perm
      [[Order.mk 100 3], [Order.mk 100 2, Order.mk 99 1]] ∧
    aggregateOrders
        ([[Order.mk 100 2, Order.mk 99 1], [Order.mk 100 3]] : List (List Order)).flatten true
      = aggregateOrders
        ([[Order.mk 100 3], [Order.mk 100 2, Order.mk 99 1]] : List (List Order)).flatten true :=
  ⟨by decide, C6_aggregation_order_independent _ _ (by decide) true⟩

/-- Claim C7: every read of the book returns bids strictly descending and asks
strictly ascending by price, and never more than the requested number of levels:
this holds for the aggregated read (`aggregateOrders` followed by
`slice(0, depth)`) and for the per-connector published read
(`updatePricesOrderBook`, whose stored arrays are exactly the sorted,
depth-truncated ladders). -/
theorem C7_reads_sorted_and_depth_limited (orders : List Order) (d now : ℕ)
    (st : ConnState) (ticker : String) (orderBook : OrderBookEntry)
    (hm : mapGet st.orderBooks ticker = some orderBook)
    (hb : keysNodup orderBook.bids) (ha : keysNodup orderBook.asks) :
    List.Pairwise bidStrict ((aggregateOrders orders true).take d) ∧
    List.Pairwise askStrict ((aggregateOrders orders false).take d) ∧
    ((aggregateOrders orders true).take d).length ≤ d ∧
    ((aggregateOrders orders false).take d).length ≤ d ∧
    (storedOrders (Binance.updatePricesOrderBook now st ticker).prices
        (Binance.parseTicker ticker)).bid = ladderBids st.orderBookDepth orderBook.bids ∧
    (storedOrders (Binance.updatePricesOrderBook now st ticker).prices
        (Binance.parseTicker ticker)).ask = ladderAsks st.orderBookDepth orderBook.asks ∧
    List.Pairwise bidStrict (ladderBids st.orderBookDepth orderBook.bids) ∧
    List.Pairwise askStrict (ladderAsks st.orderBookDepth orderBook.asks) ∧
    (ladderBids st.orderBookDepth orderBook.bids).length ≤ st.orderBookDepth ∧
    (ladderAsks st.orderBookDepth orderBook.asks).length ≤ st.orderBookDepth := by
  have hstored : mapGet (Binance.updatePricesOrderBook now st ticker).prices
      (Binance.parseTicker ticker)
      = some (TickerData.mk
          ((mapGet st.prices (Binance.parseTicker ticker)).getD defaultTickerData).price now
          (Orders.mk (ladderBids st.orderBookDepth orderBook.bids)
            (ladderAsks st.orderBookDepth orderBook.asks) (some orderBook.lastUpdateId))) := by
    unfold Binance.updatePricesOrderBook updatePricesWith
    rw [hm]
    exact mapGet_mapSet_self _ _ _
  refine ⟨List.Pairwise.sublist (List.take_sublist d _) (aggregateOrders_sorted_bid orders),
    List.Pairwise.sublist (List.take_sublist d _) (aggregateOrders_sorted_ask orders),
    ?_, ?_, ?_, ?_,
    ladderBids_sorted st.orderBookDepth hb, ladderAsks_sorted st.orderBookDepth ha,
    ladderBids_length st.orderBookDepth orderBook.bids,
    ladderAsks_length st.orderBookDepth orderBook.asks⟩
  · rw [List.length_take]; exact min_le_left _ _
  · rw [List.length_take]; exact min_le_left _ _
  · rw [storedOrders, hstored]; rfl
  · rw [storedOrders, hstored]; rfl

/-- Witness for C7: a live book with bids 100 ↦ 2, 99 ↦ 1 and ask 101 ↦ 3
instantiates both the aggregated and the connector read. -/
theorem C7_witness :
    List.Pairwise bidStrict ((aggregateOrders [Order.mk 100 2, Order.mk 99 1] true).take 5) ∧
    (storedOrders (Binance.updatePricesOrderBook 0
        (ConnState.mk [("BTCUSDT", OrderBookEntry.mk 7 [(100, 2), (99, 1)] [(101, 3)])]
          [] [] [] 20) "BTCUSDT").prices
        (Binance.parseTicker "BTCUSDT")).bid = ladderBids 20 [(100, 2), (99, 1)] ∧
    (ladderBids 20 [((100 : ℚ), (2 : ℚ)), (99, 1)]).length ≤ 20 := by
  have h := C7_reads_sorted_and_depth_limited [Order.mk 100 2, Order.mk 99 1] 5 0
    (ConnState.mk [("BTCUSDT", OrderBookEntry.mk 7 [(100, 2), (99, 1)] [(101, 3)])]
      [] [] [] 20) "BTCUSDT"
    (OrderBookEntry.mk 7 [(100, 2), (99, 1)] [(101, 3)]) (by decide) (by decide) (by decide)
  exact ⟨h.1, h.2.2.2.2.1, h.2.2.2.2.2.2.2.2.1⟩

/-- Claim C8 is right and the code violates it (code bug): in the faithful
lifecycle model of the OKX connector (Kucoin's retry path is identical),
`close()` only sets `isClosing` and closes the socket; a pending `setTimeout`
snapshot-fetch retry scheduled by a failed `initializeOrderBook` is not
cancelled, and `initializeOrderBook`, which never consults `isClosing`, issues
the REST snapshot request immediately upon entry — so after `close()` the timer
still fires a snapshot fetch, and a failing fetch schedules yet another (two
post-close fetches below).  The reconnect path, by contrast, is properly
guarded: the `onclose` handler does not reconnect once `isClosing` is set. -/
theorem C8_okx_retry_timer_fetches_after_close :
    (lifecycleRun (LifecycleState.mk false true 0 0)
      [LifecycleEvent.closeConn, LifecycleEvent.retryFires true,
        LifecycleEvent.retryFires false]).fetchCount = 2 ∧
    (lifecycleRun (LifecycleState.mk false true 0 0)
      [LifecycleEvent.closeConn, LifecycleEvent.retryFires true,
        LifecycleEvent.retryFires false]).isClosing = true ∧
    (lifecycleRun (LifecycleState.mk false true 0 0)
      [LifecycleEvent.closeConn, LifecycleEvent.wsClosed 1006]).reconnectCount = 0 := by
  refine ⟨by decide, by decide, by decide⟩
